import Mathlib

/-!
Shallow embedding of `blackhole_core.c` (geodesic black-hole renderer core).
C `double` values are modelled as real numbers; C `int` as `ℤ`; `size_t`
casts as reduction modulo 2^64; loop counters as `ℕ`.  Fallible pointer
arguments are not modelled (the null-pointer early returns of the C code
concern the caller contract only).  Each definition mirrors the C function
of the same name.
-/

namespace BHCore

noncomputable section

/-- C `static const double Mbh = 1.0`. -/
def Mbh : ℝ := 1.0

/-- C `A(r) = 1.0 - 2.0*Mbh/r`. -/
def A (r : ℝ) : ℝ := 1.0 - 2.0 * Mbh / r

/-- C `static const double rin = 6.0` (inner disk radius). -/
def rin : ℝ := 6.0

/-- C `static const double rout = 40.0` (outer disk radius). -/
def rout : ℝ := 40.0

/-- C `static const double emiss_p = 2.0` (emissivity exponent). -/
def emiss_p : ℝ := 2.0

/-- C `static const char RAMP[] = " \x60,-:'_;~/\\^\"<>!=()?\x7b\x7d|[]#%$&@"`,
as the list of its 30 non-NUL characters (backtick and braces written via
code points). -/
def RAMP : List Char :=
  [' ', Char.ofNat 96, ',', '-', ':', '\'', '_', ';', '~', '/', '\\', '^',
   '\"', '<', '>', '!', '=', '(', ')', '?', Char.ofNat 123, Char.ofNat 125,
   '|', '[', ']', '#', '%', '$', '&', '@']

/-- C struct `Hit`.  The C code leaves `r`, `phi`, `g`, `emiss` uninitialized
for non-disk outcomes; the embedding fixes them at 0 (see `bgHit`). -/
structure Hit where
  r : ℝ
  phi : ℝ
  g : ℝ
  emiss : ℝ
  hit : Bool
  bg_type : ℤ

/-- C struct `BHSceneParams`. -/
structure BHSceneParams where
  width : ℤ
  height : ℤ
  robs : ℝ
  inc_deg : ℝ
  roll_deg : ℝ
  phi_obs : ℝ
  theta_obs : ℝ
  FOVx : ℝ
  FOVy : ℝ
  gamma_c : ℝ
  roll_rad : ℝ

/-- C `bh_update_derived`: clamp non-positive pixel dimensions to 1, then
derive `theta_obs` and `FOVy` (`FOVy` reads the already-clamped
dimensions, as in the C code). -/
def bh_update_derived (p : BHSceneParams) : BHSceneParams :=
  let w := if p.width < 1 then 1 else p.width
  let h := if p.height < 1 then 1 else p.height
  { p with
    width := w
    height := h
    theta_obs := Real.pi / 2.0 - p.inc_deg * Real.pi / 180.0
    FOVy := p.FOVx * ((h : ℝ) / (w : ℝ)) }

/-- C `bh_init_scene_params`: overwrite the listed fields with the defaults
(the remaining fields keep their prior values, as in the C code) and run
`bh_update_derived`. -/
def bh_init_scene_params (p : BHSceneParams) : BHSceneParams :=
  bh_update_derived
    { p with
      width := 80
      height := 52
      robs := 39.0
      inc_deg := 10.0
      phi_obs := 0.0
      FOVx := 60.0 * Real.pi / 180.0
      gamma_c := 0.30 }

/-- C cast `(size_t)i` of a signed integer: reduction modulo `2^64`. -/
def c_size_t (i : ℤ) : ℕ := (i % (2 : ℤ) ^ 64).toNat

/-- C `bh_pixel_count`: `(size_t)width * (size_t)height` with `size_t`
(64-bit) wraparound on the product. -/
def bh_pixel_count (p : BHSceneParams) : ℕ :=
  (c_size_t p.width * c_size_t p.height) % 2 ^ 64

/-- C `ring_mul`: radial ring-banding brightness multiplier with the input
radius clamped into `[rin, rout]`. -/
def ring_mul (r : ℝ) : ℝ :=
  let c1 := if r < rin then rin else r
  let c2 := if c1 > rout then rout else c1
  let s := (c2 - rin) / (rout - rin)
  let Nbands := 8.0
  let fill_frac := 0.30
  let edge_soft := 0.02
  let band_floor := 0.12
  let peak := 1.45
  let pos := Nbands * s
  let f := pos - (Int.floor pos : ℝ)
  let w := edge_soft + 1e-6
  let t := 0.5 + 0.5 * Real.tanh ((fill_frac - f) / w)
  band_floor + (peak - band_floor) * t

/-- C `hotspots_mul` with its `N = 1` hotspot loop unrolled (`k = 0`). -/
def hotspots_mul (r phi phase : ℝ) : ℝ :=
  let amp := 3.0
  let rc := 0.5 * rout
  let Rh := 0.5 * rout
  let edge := 0.1 * rout
  let x := r * Real.cos phi
  let y := r * Real.sin phi
  let ang := -phase + 2.0 * Real.pi * 0.0 / 1.0
  let cx := rc * Real.cos ang
  let cy := rc * Real.sin ang
  let dx := x - cx
  let dy := y - cy
  let d := Real.sqrt (dx * dx + dy * dy)
  let t := 0.5 + 0.5 * Real.tanh ((Rh - d) / (edge + 1e-9))
  1.0 + amp * t

/-- Coordinate or velocity 4-vector (the C `double x[4]`, `v[4]` arrays):
component 0 is `t`, 1 is `r`, 2 is `θ`, 3 is `φ`. -/
structure V4 where
  x0 : ℝ
  x1 : ℝ
  x2 : ℝ
  x3 : ℝ

/-- Componentwise addition of two 4-vectors (the C `for i in 0..3` loops). -/
def V4.add (a b : V4) : V4 :=
  ⟨a.x0 + b.x0, a.x1 + b.x1, a.x2 + b.x2, a.x3 + b.x3⟩

/-- Componentwise scaling of a 4-vector. -/
def V4.smul (c : ℝ) (a : V4) : V4 :=
  ⟨c * a.x0, c * a.x1, c * a.x2, c * a.x3⟩

/-- C `metric`: the Schwarzschild metric at `(r, θ)`.  The C code zero-fills
a 4x4 matrix and sets only the diagonal; the embedding records the four
diagonal entries. -/
def metric (r th : ℝ) : V4 :=
  let s := Real.sin th
  let s2 := s * s
  ⟨-(A r), 1.0 / A r, r * r, r * r * s2⟩

/-- C `accel`: geodesic acceleration from the Schwarzschild connection
coefficients. -/
def accel (x v : V4) : V4 :=
  let r := x.x1
  let th := x.x2
  let s := Real.sin th
  let c := Real.cos th
  let Gttr := Mbh / (r * (r - 2.0 * Mbh))
  let Grtt := A r * Mbh / (r * r)
  let Grrr := -Mbh / (r * (r - 2.0 * Mbh))
  let Grthth := -(r - 2.0 * Mbh)
  let Grphph := -(r - 2.0 * Mbh) * s * s
  let Gthrth := 1.0 / r
  let Gthphph := -s * c
  let Gphrph := 1.0 / r
  let Gphthph := c / (s + 1e-12)
  let vt := v.x0
  let vr := v.x1
  let vth := v.x2
  let vph := v.x3
  ⟨-2.0 * Gttr * vt * vr,
   -(Grtt * vt * vt + Grrr * vr * vr + Grthth * vth * vth +
     Grphph * vph * vph),
   -(2.0 * Gthrth * vr * vth + Gthphph * vph * vph),
   -(2.0 * Gphrph * vr * vph + 2.0 * Gphthph * vth * vph)⟩

/-- C `rk4`: one classic fourth-order Runge-Kutta step of size `h`,
followed by the polar-angle clamp into `[1e-6, π - 1e-6]`. -/
def rk4 (x v : V4) (h : ℝ) : V4 × V4 :=
  let a1 := accel x v
  let k1x := V4.smul h v
  let k1v := V4.smul h a1
  let xt1 := V4.add x (V4.smul 0.5 k1x)
  let vt1 := V4.add v (V4.smul 0.5 k1v)
  let a2 := accel xt1 vt1
  let k2x := V4.smul h vt1
  let k2v := V4.smul h a2
  let xt2 := V4.add x (V4.smul 0.5 k2x)
  let vt2 := V4.add v (V4.smul 0.5 k2v)
  let a3 := accel xt2 vt2
  let k3x := V4.smul h vt2
  let k3v := V4.smul h a3
  let xt3 := V4.add x k3x
  let vt3 := V4.add v k3v
  let a4 := accel xt3 vt3
  let k4x := V4.smul h vt3
  let k4v := V4.smul h a4
  let xn := V4.add x (V4.smul (1.0 / 6.0)
    (V4.add k1x (V4.add (V4.smul 2.0 k2x) (V4.add (V4.smul 2.0 k3x) k4x))))
  let vn := V4.add v (V4.smul (1.0 / 6.0)
    (V4.add k1v (V4.add (V4.smul 2.0 k2v) (V4.add (V4.smul 2.0 k3v) k4v))))
  let xn1 := if xn.x2 < 1e-6 then { xn with x2 := 1e-6 } else xn
  let xn2 :=
    if xn1.x2 > Real.pi - 1e-6 then { xn1 with x2 := Real.pi - 1e-6 } else xn1
  (xn2, vn)

/-- C `pix_ray`: initial geodesic state for the ray of pixel `(px, py)`. -/
def pix_ray (p : BHSceneParams) (px py : ℕ) : V4 × V4 :=
  let u := ((px : ℝ) + 0.5) / (p.width : ℝ) - 0.5
  let v := ((py : ℝ) + 0.5) / (p.height : ℝ) - 0.5
  let ax := u * p.FOVx
  let ay := v * p.FOVy
  let nr0 := -1.0
  let nth0 := Real.tan ay
  let nph0 := Real.tan ax
  let norm := Real.sqrt (nr0 * nr0 + nth0 * nth0 + nph0 * nph0)
  let nr := nr0 / norm
  let nth := nth0 / norm
  let nph := nph0 / norm
  let Ar := A p.robs
  let s := Real.sin p.theta_obs
  (⟨0.0, p.robs, p.theta_obs, p.phi_obs⟩,
   ⟨1.0 / Real.sqrt Ar, nr * Real.sqrt Ar, nth / p.robs,
    nph / (p.robs * (if s > 1e-12 then s else 1e-12))⟩)

/-- C `const double h0 = 0.5` in `trace_pixel` (base integration step). -/
def h0 : ℝ := 0.5

/-- C `const double rh = 2.0 * Mbh` in `trace_pixel` (horizon radius). -/
def rh : ℝ := 2.0 * Mbh

/-- Step-size selection at the top of the `trace_pixel` loop: `h = h0`,
quartered below `r = 10`, eighthed below `r = 6` (sequential `if`s as in
the C code). -/
def stepSize (r : ℝ) : ℝ :=
  let h := h0
  let h := if r < 10.0 then 0.25 * h0 else h
  if r < 6.0 then 0.125 * h0 else h

/-- Non-disk outcome record: `H.hit = 0` with the given `bg_type`
(1 = Sky, 2 = Captured, 3 = InnerVoid).  The C code leaves the numeric
fields of such records uninitialized; the embedding fixes them at 0. -/
def bgHit (b : ℤ) : Hit :=
  { r := 0, phi := 0, g := 0, emiss := 0, hit := false, bg_type := b }

/-- Loop state of `trace_pixel`: current position/velocity, the previous
step's position/velocity, the previous polar angle, and the running
minimum radius. -/
structure TS where
  x : V4
  v : V4
  xp : V4
  vp : V4
  thp : ℝ
  rmin : ℝ

/-- Interpolation fraction `f` of the disk-plane crossing
(C: `(π/2 - th_prev)/(x[2] - th_prev + 1e-15)` with `x` the post-step
position). -/
def crossF (s : TS) (x : V4) : ℝ :=
  (Real.pi / 2.0 - s.thp) / (x.x2 - s.thp + 1e-15)

/-- Interpolated crossing radius `rhit`. -/
def crossR (s : TS) (x : V4) : ℝ :=
  s.xp.x1 + crossF s x * (x.x1 - s.xp.x1)

/-- Interpolated crossing azimuth `phit` (before wrapping). -/
def crossPhi (s : TS) (x : V4) : ℝ :=
  s.xp.x3 + crossF s x * (x.x3 - s.xp.x3)

/-- Truncation of a real toward zero, as the C `(int)` / `fmod` quotient
rounding. -/
def ctrunc (x : ℝ) : ℤ :=
  if 0 ≤ x then Int.floor x else Int.ceil x

/-- C `fmod(a, b)`: `a - b * trunc(a / b)`. -/
def cfmod (a b : ℝ) : ℝ := a - b * (ctrunc (a / b) : ℝ)

/-- Construction of the `DiskHit` record from the disk-plane crossing block
of `trace_pixel` (redshift factor, azimuth wrap, emissivity). -/
def mkDiskHit (p : BHSceneParams) (s : TS) (x v : V4) : Hit :=
  let f := crossF s x
  let rhit := crossR s x
  let phit := crossPhi s x
  let vh : V4 :=
    ⟨s.vp.x0 + f * (v.x0 - s.vp.x0), s.vp.x1 + f * (v.x1 - s.vp.x1),
     s.vp.x2 + f * (v.x2 - s.vp.x2), s.vp.x3 + f * (v.x3 - s.vp.x3)⟩
  let gmn := metric rhit (Real.pi / 2.0)
  let pmu : V4 :=
    ⟨gmn.x0 * vh.x0, gmn.x1 * vh.x1, gmn.x2 * vh.x2, gmn.x3 * vh.x3⟩
  let ut_obs := 1.0 / Real.sqrt (A p.robs)
  let Eobs := -(pmu.x0 * ut_obs)
  let denom := Real.sqrt (1.0 - 3.0 * Mbh / rhit)
  let ut := 1.0 / denom
  let uphi := Real.sqrt (Mbh / (rhit * rhit * rhit)) / denom
  let Eem := -(pmu.x0 * ut + pmu.x3 * uphi)
  let g := Eobs / (if Eem > 1e-15 then Eem else 1e-15)
  { r := rhit
    phi := cfmod (phit + 1000.0 * Real.pi * 2.0) (2.0 * Real.pi)
    g := if g > 0 then g else 0
    emiss := Real.rpow rhit (-emiss_p)
    hit := true
    bg_type := 0 }

/-- One iteration of the `trace_pixel` loop at step counter `step`:
integrate, update the minimum radius, then check capture, escape and
disk-plane crossing in the C order.  `Sum.inl` is a terminal outcome,
`Sum.inr` the next loop state. -/
def traceBody (p : BHSceneParams) (step : ℕ) (s : TS) : Hit ⊕ TS :=
  let h := stepSize s.x.x1
  let xv := rk4 s.x s.v h
  let x := xv.1
  let v := xv.2
  let rmin1 := if x.x1 < s.rmin then x.x1 else s.rmin
  if x.x1 ≤ 1.001 * rh then Sum.inl (bgHit 2)
  else if x.x1 > 1.2 * p.robs ∧ step > 10 then
    Sum.inl (bgHit
      (if rmin1 < 3.0 * Mbh then 2 else if rmin1 < rin then 3 else 1))
  else if (s.thp - Real.pi / 2.0) * (x.x2 - Real.pi / 2.0) ≤ 0.0 then
    if rin ≤ crossR s x ∧ crossR s x ≤ rout then
      Sum.inl (mkDiskHit p s x v)
    else Sum.inr ⟨x, v, x, v, x.x2, rmin1⟩
  else Sum.inr ⟨x, v, x, v, x.x2, rmin1⟩

/-- The `trace_pixel` loop: run `traceBody` with at most `fuel` more
iterations; on step-budget exhaustion classify by the running minimum
radius (the C post-loop fallback). -/
def traceLoop (p : BHSceneParams) : ℕ → ℕ → TS → Hit
  | _, 0, s =>
    bgHit (if s.rmin < 3.0 * Mbh then 2 else if s.rmin < rin then 3 else 1)
  | step, fuel + 1, s =>
    match traceBody p step s with
    | Sum.inl H => H
    | Sum.inr s2 => traceLoop p (step + 1) fuel s2

/-- C `trace_pixel`: build the initial ray and run the 5000-step loop. -/
def trace_pixel (p : BHSceneParams) (px py : ℕ) : Hit :=
  let xv := pix_ray p px py
  traceLoop p 0 5000 ⟨xv.1, xv.2, xv.1, xv.2, xv.1.x2, xv.1.x1⟩

/-- C `bh_trace_map`: the row-major lens map of all pixel traces. -/
def bh_trace_map (p : BHSceneParams) : List Hit :=
  (List.range p.height.toNat).flatMap fun y =>
    (List.range p.width.toNat).map fun x => trace_pixel p x y

/-- C `base_disk_value`: phase-independent baseline brightness
`emiss * g^3 * ring_mul r` (the C `pow(g, 3.0)` as a real power). -/
def base_disk_value (hit : Hit) : ℝ :=
  let g3 := Real.rpow hit.g 3.0
  hit.emiss * g3 * ring_mul hit.r

/-- C `disk_value_with_hotspots`: baseline times hotspot modulation. -/
def disk_value_with_hotspots (hit : Hit) (phase : ℝ) : ℝ :=
  base_disk_value hit * hotspots_mul hit.r hit.phi phase

/-- Body of the `bh_compute_norm_scale` accumulation loop: keep the larger
of the running scale and the pixel's baseline value, for hit pixels only. -/
def normFoldF (map : ℕ → Hit) (ns : ℝ) (i : ℕ) : ℝ :=
  if (map i).hit then
    if base_disk_value (map i) > ns then base_disk_value (map i) else ns
  else ns

/-- C `bh_compute_norm_scale`: fold the baseline maximum over all pixels,
starting from the `1e-12` floor.  The lens map is modelled as a total
indexing function. -/
def bh_compute_norm_scale (p : BHSceneParams) (map : ℕ → Hit) : ℝ :=
  List.foldl (normFoldF map) 1e-12 (List.range (bh_pixel_count p))

/-- Modelled from the spec: the maximum phase-independent baseline
brightness over all DiskHit pixels (same accumulation, started at 0 instead
of the epsilon floor), used to compare the computed scale against the
spec's description. -/
def specMaxBase (p : BHSceneParams) (map : ℕ → Hit) : ℝ :=
  List.foldl (normFoldF map) 0 (List.range (bh_pixel_count p))

/-- C `sky_char`: deterministic hashed starfield character, with 32-bit
unsigned arithmetic modelled modulo `2^32`. -/
def sky_char (x y : ℕ) (phase : ℝ) : Char :=
  let h1 := Nat.xor 1469598103 ((x * 374761393 + y * 668265263) % 2 ^ 32)
  let h := (h1 * 16777619) % 2 ^ 32
  let r := h % 65536
  if r < 12000 then '.'
  else if r < 16000 then
    let tw := Real.sin (phase * 0.60 +
      (((h / 2 ^ 8) % 1024 : ℕ) : ℝ) * (2.0 * Real.pi / 1024.0))
    if tw > 0.92 then '*' else '+'
  else if r < 16800 then
    let tw := Real.sin (phase * 0.75 +
      ((h % 1024 : ℕ) : ℝ) * (2.0 * Real.pi / 1024.0))
    if tw > 0.10 then '*' else '+'
  else ' '

/-- C `ramp_len`: `sizeof(RAMP) - 1` (= 30), clamped to at least 1. -/
def ramp_len : ℤ :=
  if (RAMP.length : ℤ) < 1 then 1 else (RAMP.length : ℤ)

/-- Per-pixel character selection of `bh_generate_ascii_frame` (the body of
its double loop), given the already-checked normalization scale. -/
def pixelChar (p : BHSceneParams) (H : Hit) (phase ns : ℝ) (x y : ℕ) :
    Char :=
  if H.hit then
    let val := disk_value_with_hotspots H phase
    let v := val / ns
    let v1 := if v < 0.0 then 0.0 else v
    let v2 := if v1 > 1.0 then 1.0 else v1
    let q := Real.rpow v2 p.gamma_c
    let idx := ctrunc (q * ((ramp_len : ℝ) - 1))
    let idx1 := if idx < 0 then 0 else idx
    let idx2 := if idx1 > ramp_len - 1 then ramp_len - 1 else idx1
    RAMP.getD idx2.toNat ' '
  else if H.bg_type = 2 then ' '
  else if H.bg_type = 3 then ' '
  else sky_char x y phase

/-- C `bh_generate_ascii_frame`: replace a non-positive normalization scale
by 1, then emit one character per pixel in row-major order. -/
def bh_generate_ascii_frame (p : BHSceneParams) (map : ℕ → Hit)
    (phase norm_scale : ℝ) : List Char :=
  let ns := if norm_scale ≤ 0.0 then 1.0 else norm_scale
  (List.range p.height.toNat).flatMap fun y =>
    (List.range p.width.toNat).map fun x =>
      pixelChar p (map (y * p.width.toNat + x)) phase ns x y

/-- Arbitrary fully-initialized scene record used as the starting point for
concrete instantiations. -/
def pZero : BHSceneParams :=
  { width := 80, height := 52, robs := 39.0, inc_deg := 10.0,
    roll_deg := 0.0, phi_obs := 0.0, theta_obs := 0.0,
    FOVx := 1.0, FOVy := 1.0, gamma_c := 0.30, roll_rad := 0.0 }

/-- The default scene of `bh_init_scene_params`. -/
def p0 : BHSceneParams := bh_init_scene_params pZero

/-- Zero 4-vector. -/
def v4zero : V4 := ⟨0.0, 0.0, 0.0, 0.0⟩

/-- Concrete position far outside the escape radius (used to instantiate
loop-state theorems). -/
def xEsc : V4 := ⟨0.0, 50.0, 1.0, 0.0⟩

/-- Loop state at radius 50 with zero velocity and running minimum 50. -/
def sEsc : TS := ⟨xEsc, v4zero, xEsc, v4zero, 1.0, 50.0⟩

/-- Concrete position just outside the horizon. -/
def xCap : V4 := ⟨0.0, 2.001, 1.0, 0.0⟩

/-- Loop state at radius 2.001 with zero velocity. -/
def sCap : TS := ⟨xCap, v4zero, xCap, v4zero, 1.0, 2.001⟩

/-- Loop state whose running minimum radius is 4 (between the photon-sphere
threshold 3M and the inner disk radius 6M). -/
def sC2 : TS := ⟨xEsc, v4zero, xEsc, v4zero, 1.0, 4.0⟩

/-- Concrete position sitting exactly on the disk plane at radius 10. -/
def xDisk : V4 := ⟨0, 10, Real.pi / 2, 0⟩

/-- Loop state on the disk plane at radius 10 (the crossing interpolation
fraction is 0 there). -/
def sDisk : TS := ⟨xDisk, v4zero, xDisk, v4zero, Real.pi / 2, 10⟩

/-- One-pixel scene. -/
def pOne : BHSceneParams := { pZero with width := 1, height := 1 }

/-- Disk-hit record with redshift factor clamped to 0 (degenerate baseline
brightness). -/
def hitG0 : Hit := { r := 10, phi := 0, g := 0, emiss := 1, hit := true, bg_type := 0 }

/-- Lens map whose only pixel is `hitG0`. -/
def mapG0 : ℕ → Hit := fun _ => hitG0

/-- Disk-hit record with redshift factor 1. -/
def hitG1 : Hit := { r := 10, phi := 0, g := 1, emiss := 1, hit := true, bg_type := 0 }

/-- Lens map whose only pixel is `hitG1`. -/
def mapG1 : ℕ → Hit := fun _ => hitG1

/-!
Theorems.
-/

/-- The C running-minimum update `if a < b then a else b` is the binary
minimum. -/
theorem if_lt_min_eq (a b : ℝ) : (if a < b then a else b) = min a b := by
  rcases lt_trichotomy a b with h | h | h
  · rw [if_pos h, min_eq_left h.le]
  · subst h; rw [if_neg (lt_irrefl a), min_self]
  · rw [if_neg (not_lt.2 h.le), min_eq_right h.le]

/-- A Runge-Kutta step from zero velocity leaves the state unchanged (all
stage accelerations vanish), provided the polar angle is inside the clamp
interval. -/
theorem rk4_zero_velocity (x : V4) (h : ℝ)
    (h1 : ¬ x.x2 < 1e-6) (h2 : ¬ x.x2 > Real.pi - 1e-6) :
    rk4 x v4zero h = (x, v4zero) := by
  simp only [rk4, accel, v4zero, V4.add, V4.smul]
  norm_num at h1 h2 ⊢
  rw [if_neg (not_lt.2 h1)]
  rw [if_neg (not_lt.2 h2)]

/-- The polar angle 1 lies inside the clamp interval `[1e-6, π - 1e-6]`. -/
theorem theta_one_in_clamp :
    ¬ (⟨0.0, 50.0, 1.0, 0.0⟩ : V4).x2 < 1e-6 ∧
    ¬ (⟨0.0, 50.0, 1.0, 0.0⟩ : V4).x2 > Real.pi - 1e-6 := by
  have hpi := Real.pi_gt_three
  refine ⟨by norm_num, by norm_num; linarith⟩

/-- The default scene keeps the observer radius 39. -/
theorem p0_robs : p0.robs = 39 := by
  simp only [p0, bh_init_scene_params, bh_update_derived]
  norm_num

/-- Claim C1: when the escape condition fires after a step (post-step
radius above `1.2 * robs` with step counter past 10, and capture not
firing), the trace terminates, classified by the minimum radius ever
reached with the three-tier rule (below `3M` Captured = `bg_type 2`, below
`rin = 6M` InnerVoid = `bg_type 3`, otherwise Sky = `bg_type 1`); and on
exhaustion of the step budget the trace is classified by exactly the same
three-tier rule on the running minimum radius. -/
theorem c1_escape_and_budget_classification :
    (∀ (p : BHSceneParams) (step fuel : ℕ) (s : TS) (r1 : ℝ),
      r1 = (rk4 s.x s.v (stepSize s.x.x1)).1.x1 →
      ¬ r1 ≤ 1.001 * rh →
      r1 > 1.2 * p.robs →
      step > 10 →
      traceLoop p step (fuel + 1) s =
        bgHit (if min r1 s.rmin < 3.0 * Mbh then 2
               else if min r1 s.rmin < rin then 3 else 1)) ∧
    (∀ (p : BHSceneParams) (step : ℕ) (s : TS),
      traceLoop p step 0 s =
        bgHit (if s.rmin < 3.0 * Mbh then 2
               else if s.rmin < rin then 3 else 1)) := by
  constructor
  · intro p step fuel s r1 hr hcap hesc hstep
    have hbody : traceBody p step s =
        Sum.inl (bgHit (if min r1 s.rmin < 3.0 * Mbh then 2
                        else if min r1 s.rmin < rin then 3 else 1)) := by
      simp only [traceBody]
      rw [← hr]
      rw [if_neg hcap, if_pos ⟨hesc, hstep⟩, if_lt_min_eq]
    simp only [traceLoop, hbody]
  · intro p step s
    simp only [traceLoop]

/-- Witness for C1: a zero-velocity ray at radius 50 under the default
scene escapes at step 11 and is classified Sky, and a budget-exhausted
state with running minimum 50 is classified Sky. -/
theorem c1_escape_and_budget_classification_witness :
    traceLoop p0 11 1 sEsc = bgHit 1 ∧ traceLoop p0 0 0 sEsc = bgHit 1 := by
  have hrk : rk4 sEsc.x sEsc.v (stepSize sEsc.x.x1) = (sEsc.x, v4zero) :=
    rk4_zero_velocity _ _ theta_one_in_clamp.1 theta_one_in_clamp.2
  have h1 := c1_escape_and_budget_classification.1 p0 11 0 sEsc 50
    (by rw [hrk]; norm_num [sEsc, xEsc])
    (by norm_num [rh, Mbh])
    (by rw [p0_robs]; norm_num)
    (by norm_num)
  have h2 := c1_escape_and_budget_classification.2 p0 0 sEsc
  constructor
  · rw [show (0 : ℕ) + 1 = 1 from rfl] at h1
    rw [h1]
    norm_num [sEsc, Mbh, rin]
  · rw [h2]
    norm_num [sEsc, Mbh, rin]

/-- Claim C3: whenever the post-step radius is at or below
`1.001 * (2M)` the trace terminates immediately with the Captured tag
(`bg_type 2`, `hit = false`, hence never a disk hit); no escape or
disk-crossing condition is consulted, i.e. the capture check has priority
on every step. -/
theorem c3_capture_priority :
    ∀ (p : BHSceneParams) (step fuel : ℕ) (s : TS) (r1 : ℝ),
      r1 = (rk4 s.x s.v (stepSize s.x.x1)).1.x1 →
      r1 ≤ 1.001 * rh →
      traceLoop p step (fuel + 1) s = bgHit 2 ∧ (bgHit 2).hit = false := by
  intro p step fuel s r1 hr hcap
  have hbody : traceBody p step s = Sum.inl (bgHit 2) := by
    simp only [traceBody]
    rw [← hr]
    rw [if_pos hcap]
  exact ⟨by simp only [traceLoop, hbody], rfl⟩

/-- Witness for C3: a zero-velocity state at radius 2.001 (inside the
`1.001 * 2M` capture shell) is tagged Captured on the next step. -/
theorem c3_capture_priority_witness :
    traceLoop p0 0 1 sCap = bgHit 2 ∧ (bgHit 2).hit = false := by
  have hth1 : ¬ sCap.x.x2 < 1e-6 := by norm_num [sCap, xCap]
  have hth2 : ¬ sCap.x.x2 > Real.pi - 1e-6 := by
    have hpi := Real.pi_gt_three
    norm_num [sCap, xCap]; linarith
  have hrk : rk4 sCap.x sCap.v (stepSize sCap.x.x1) = (sCap.x, v4zero) :=
    rk4_zero_velocity _ _ hth1 hth2
  have h := c3_capture_priority p0 0 0 sCap 2.001
    (by rw [hrk]; norm_num [sCap, xCap])
    (by norm_num [rh, Mbh])
  exact h

/-- Counterexample to C2: a trace whose running minimum radius is 4 (never
below `3M`) is classified InnerVoid (`bg_type 3`), not Sky (`bg_type 1`),
at budget exhaustion. -/
theorem c2_never_below_3M_counterexample :
    3.0 * Mbh ≤ sC2.rmin ∧ traceLoop p0 0 0 sC2 ≠ bgHit 1 := by
  constructor
  · norm_num [sC2, Mbh]
  · simp only [traceLoop]
    norm_num [sC2, Mbh, rin, bgHit]

/-- Claim C2 (amended): for a trace whose minimum radius never goes below
`3M`, the closest-approach classification (on escape or on budget
exhaustion) is never Captured: it is InnerVoid when the minimum dipped
below the inner disk radius `6M` and Sky otherwise. -/
theorem c2_amended_never_captured :
    (∀ (p : BHSceneParams) (step : ℕ) (s : TS),
      3.0 * Mbh ≤ s.rmin →
      traceLoop p step 0 s = bgHit (if s.rmin < rin then 3 else 1)) ∧
    (∀ (p : BHSceneParams) (step fuel : ℕ) (s : TS) (r1 : ℝ),
      r1 = (rk4 s.x s.v (stepSize s.x.x1)).1.x1 →
      ¬ r1 ≤ 1.001 * rh →
      r1 > 1.2 * p.robs →
      step > 10 →
      3.0 * Mbh ≤ min r1 s.rmin →
      traceLoop p step (fuel + 1) s =
        bgHit (if min r1 s.rmin < rin then 3 else 1)) := by
  constructor
  · intro p step s h3
    simp only [traceLoop]
    rw [if_neg (not_lt.2 h3)]
  · intro p step fuel s r1 hr hcap hesc hstep h3
    have hbody : traceBody p step s =
        Sum.inl (bgHit (if min r1 s.rmin < rin then 3 else 1)) := by
      simp only [traceBody]
      rw [← hr]
      rw [if_neg hcap, if_pos ⟨hesc, hstep⟩, if_lt_min_eq,
        if_neg (not_lt.2 h3)]
    simp only [traceLoop, hbody]

/-- Witness for the amended C2 at a budget-exhausted state with minimum
radius 50 and at an escaping step with post-step radius 50. -/
theorem c2_amended_never_captured_witness :
    traceLoop p0 0 0 sEsc = bgHit 1 ∧ traceLoop p0 11 1 sEsc = bgHit 1 := by
  have hrk : rk4 sEsc.x sEsc.v (stepSize sEsc.x.x1) = (sEsc.x, v4zero) :=
    rk4_zero_velocity _ _ theta_one_in_clamp.1 theta_one_in_clamp.2
  have h1 := c2_amended_never_captured.1 p0 0 sEsc (by norm_num [sEsc, Mbh])
  have h2 := c2_amended_never_captured.2 p0 11 0 sEsc 50
    (by rw [hrk]; norm_num [sEsc, xEsc])
    (by norm_num [rh, Mbh])
    (by rw [p0_robs]; norm_num)
    (by norm_num)
    (by norm_num [sEsc, Mbh])
  constructor
  · rw [h1]; norm_num [sEsc, rin]
  · rw [show (0 : ℕ) + 1 = 1 from rfl] at h2
    rw [h2]; norm_num [sEsc, rin]

/-- Hyperbolic tangent is bounded below by -1. -/
theorem tanh_gt_neg_one (x : ℝ) : -1 < Real.tanh x := by
  have hc := Real.cosh_pos x
  have he := Real.exp_pos x
  have hs := Real.sinh_add_cosh x
  rw [Real.tanh_eq_sinh_div_cosh, lt_div_iff₀ hc]
  nlinarith

/-- Lower bound of the ring-banding form `floor + (peak - floor) * t` with
`t` built from a hyperbolic tangent. -/
theorem band_form_lb (x : ℝ) :
    (0.12 : ℝ) ≤ 0.12 + (1.45 - 0.12) * (0.5 + 0.5 * Real.tanh x) := by
  nlinarith [tanh_gt_neg_one x]

/-- The ring-banding multiplier is at least its band floor 0.12 at every
radius. -/
theorem ring_mul_lb (r : ℝ) : (0.12 : ℝ) ≤ ring_mul r := by
  simp only [ring_mul]
  exact band_form_lb _

/-- The C accumulator update `if a > ns then a else ns` is the binary
maximum. -/
theorem if_gt_max_eq (a b : ℝ) : (if a > b then a else b) = max a b := by
  rcases lt_trichotomy b a with h | h | h
  · rw [if_pos h, max_eq_left h.le]
  · subst h; rw [if_neg (lt_irrefl b), max_self]
  · rw [if_neg (not_lt.2 h.le), max_eq_right h.le]

/-- The normalization fold step written with the binary maximum. -/
theorem normFoldF_eq (map : ℕ → Hit) (ns : ℝ) (i : ℕ) :
    normFoldF map ns i =
      if (map i).hit then max (base_disk_value (map i)) ns else ns := by
  simp only [normFoldF, if_gt_max_eq]

/-- One step of the normalization fold commutes with taking a maximum of
the accumulator. -/
theorem normFoldF_max (map : ℕ → Hit) (a b : ℝ) (i : ℕ) :
    normFoldF map (max a b) i = max a (normFoldF map b i) := by
  simp only [normFoldF_eq]
  cases hhit : (map i).hit with
  | false => simp
  | true =>
    simp only [if_true]
    exact max_left_comm _ a b

/-- The normalization fold started at `max a b` equals `a` maxed with the
fold started at `b`. -/
theorem foldl_normFoldF_max (map : ℕ → Hit) (l : List ℕ) (a b : ℝ) :
    List.foldl (normFoldF map) (max a b) l =
      max a (List.foldl (normFoldF map) b l) := by
  induction l generalizing b with
  | nil => rfl
  | cons i t ih =>
    simp only [List.foldl_cons, normFoldF_max, ih]

/-- The computed normalization scale is the baseline maximum floored at the
`1e-12` epsilon. -/
theorem norm_scale_eq_max (p : BHSceneParams) (map : ℕ → Hit) :
    bh_compute_norm_scale p map = max 1e-12 (specMaxBase p map) := by
  have h := foldl_normFoldF_max map (List.range (bh_pixel_count p)) 1e-12 0
  rw [max_eq_left (by norm_num : (0 : ℝ) ≤ 1e-12)] at h
  exact h

/-- Claim C5 (amended): the normalization scale equals the maximum of
`emissivity * g^3 * ring_banding` over all DiskHit pixels floored at
`1e-12`; it is strictly positive (for every lens map, in particular any
scene with a DiskHit pixel); and whenever the baseline maximum reaches the
`1e-12` floor, the maximum baseline divided by the scale equals exactly 1. -/
theorem c5_norm_scale_spec (p : BHSceneParams) (map : ℕ → Hit) :
    bh_compute_norm_scale p map = max 1e-12 (specMaxBase p map) ∧
    0 < bh_compute_norm_scale p map ∧
    (1e-12 ≤ specMaxBase p map →
      specMaxBase p map / bh_compute_norm_scale p map = 1) := by
  refine ⟨norm_scale_eq_max p map, ?_, ?_⟩
  · rw [norm_scale_eq_max p map]
    exact lt_of_lt_of_le (by norm_num) (le_max_left _ _)
  · intro hge
    rw [norm_scale_eq_max p map, max_eq_right hge]
    exact div_self (by linarith)

/-- Counterexample to C5 as stated: a one-pixel scene whose single DiskHit
has redshift factor 0 has baseline maximum 0, the scale is the floor
`1e-12`, and the maximum baseline divided by the scale is 0, not 1. -/
theorem c5_ratio_counterexample :
    (mapG0 0).hit = true ∧ bh_pixel_count pOne = 1 ∧
    specMaxBase pOne mapG0 / bh_compute_norm_scale pOne mapG0 ≠ 1 := by
  have hm1 : (1 : ℤ) % (2 : ℤ) ^ 64 = 1 :=
    Int.emod_eq_of_lt (by norm_num) (by norm_num)
  have hc1 : c_size_t (1 : ℤ) = 1 := by
    simp only [c_size_t, hm1]; rfl
  have hcount : bh_pixel_count pOne = 1 := by
    simp only [bh_pixel_count, pOne, hc1]
    norm_num
  have h30 : Real.rpow (0 : ℝ) 3.0 = 0 := Real.zero_rpow (by norm_num)
  have hbase : base_disk_value hitG0 = 0 := by
    simp only [base_disk_value, hitG0, h30]
    ring
  have hr1 : List.range 1 = [0] := rfl
  have hhit0 : hitG0.hit = true := rfl
  have hsm : specMaxBase pOne mapG0 = 0 := by
    simp only [specMaxBase, hcount, hr1, List.foldl_cons,
      List.foldl_nil, normFoldF_eq, mapG0, hhit0, if_true, hbase]
    simp
  have hns : bh_compute_norm_scale pOne mapG0 = 1e-12 := by
    simp only [bh_compute_norm_scale, hcount, hr1,
      List.foldl_cons, List.foldl_nil, normFoldF_eq, mapG0, hhit0,
      if_true, hbase]
    rw [max_eq_right (by norm_num)]
  refine ⟨rfl, hcount, ?_⟩
  rw [hsm, hns]
  norm_num

/-- Witness for the amended C5 on a one-pixel scene whose DiskHit has
redshift factor 1: the baseline maximum is `ring_mul 10 ≥ 0.12`, above the
floor, and the normalized maximum equals 1. -/
theorem c5_norm_scale_spec_witness :
    specMaxBase pOne mapG1 / bh_compute_norm_scale pOne mapG1 = 1 := by
  have hm1 : (1 : ℤ) % (2 : ℤ) ^ 64 = 1 :=
    Int.emod_eq_of_lt (by norm_num) (by norm_num)
  have hc1 : c_size_t (1 : ℤ) = 1 := by
    simp only [c_size_t, hm1]; rfl
  have hcount : bh_pixel_count pOne = 1 := by
    simp only [bh_pixel_count, pOne, hc1]
    norm_num
  have h13 : Real.rpow (1 : ℝ) 3.0 = 1 := Real.one_rpow 3.0
  have hbase : base_disk_value hitG1 = ring_mul 10 := by
    simp only [base_disk_value, hitG1, h13]
    ring
  have hr1 : List.range 1 = [0] := rfl
  have hhit1 : hitG1.hit = true := rfl
  have hsm : specMaxBase pOne mapG1 = ring_mul 10 := by
    simp only [specMaxBase, hcount, hr1, List.foldl_cons,
      List.foldl_nil, normFoldF_eq, mapG1, hhit1, if_true, hbase]
    rw [max_eq_left (by linarith [ring_mul_lb 10])]
  exact (c5_norm_scale_spec pOne mapG1).2.2
    (by rw [hsm]; linarith [ring_mul_lb 10])

/-- C `fmod` on a nonnegative dividend and positive divisor lands in
`[0, divisor)`. -/
theorem cfmod_mem_Ico (a b : ℝ) (ha : 0 ≤ a) (hb : 0 < b) :
    0 ≤ cfmod a b ∧ cfmod a b < b := by
  have hdiv : 0 ≤ a / b := div_nonneg ha hb.le
  have hfr : a - b * (⌊a / b⌋ : ℝ) = b * Int.fract (a / b) := by
    rw [Int.fract]
    field_simp
  simp only [cfmod, ctrunc, if_pos hdiv, hfr]
  constructor
  · exact mul_nonneg hb.le (Int.fract_nonneg _)
  · calc b * Int.fract (a / b) < b * 1 :=
        mul_lt_mul_of_pos_left (Int.fract_lt_one _) hb
      _ = b := mul_one b

/-- Claim C4: every disk-hit record built at a disk-plane crossing is
well-formed: its radius is the interpolated crossing radius, lying in
`[rin, rout]` (the branch guard), its azimuth lies in `[0, 2π)` (given
that the unwrapped interpolated azimuth is at least `-2000π`, so that the
C `fmod` dividend is nonnegative), its redshift factor is never negative,
and its emissivity is `r^(-2)`. -/
theorem c4_diskhit_wellformed (p : BHSceneParams) (s : TS) (x v : V4)
    (h1 : rin ≤ crossR s x) (h2 : crossR s x ≤ rout)
    (h3 : 0 ≤ crossPhi s x + 1000.0 * Real.pi * 2.0) :
    (mkDiskHit p s x v).hit = true ∧
    (mkDiskHit p s x v).r = crossR s x ∧
    rin ≤ (mkDiskHit p s x v).r ∧ (mkDiskHit p s x v).r ≤ rout ∧
    0 ≤ (mkDiskHit p s x v).phi ∧
    (mkDiskHit p s x v).phi < 2.0 * Real.pi ∧
    0 ≤ (mkDiskHit p s x v).g ∧
    (mkDiskHit p s x v).emiss = Real.rpow (mkDiskHit p s x v).r (-2.0) := by
  have h2pi : (0 : ℝ) < 2.0 * Real.pi := by
    have := Real.pi_pos
    norm_num
    linarith
  have hmod := cfmod_mem_Ico (crossPhi s x + 1000.0 * Real.pi * 2.0)
    (2.0 * Real.pi) h3 h2pi
  have hclamp : ∀ z : ℝ, 0 ≤ if z > 0 then z else 0 := by
    intro z
    split
    · linarith
    · exact le_refl (0 : ℝ)
  refine ⟨rfl, rfl, h1, h2, hmod.1, hmod.2, ?_, ?_⟩
  · simp only [mkDiskHit]
    exact hclamp _
  · simp only [mkDiskHit]
    norm_num [emiss_p]

/-- Witness for C4 at a crossing state sitting exactly on the disk plane at
radius 10 with azimuth 0. -/
theorem c4_diskhit_wellformed_witness :
    (mkDiskHit p0 sDisk xDisk v4zero).hit = true ∧
    (mkDiskHit p0 sDisk xDisk v4zero).r = crossR sDisk xDisk ∧
    rin ≤ (mkDiskHit p0 sDisk xDisk v4zero).r ∧
    (mkDiskHit p0 sDisk xDisk v4zero).r ≤ rout ∧
    0 ≤ (mkDiskHit p0 sDisk xDisk v4zero).phi ∧
    (mkDiskHit p0 sDisk xDisk v4zero).phi < 2.0 * Real.pi ∧
    0 ≤ (mkDiskHit p0 sDisk xDisk v4zero).g ∧
    (mkDiskHit p0 sDisk xDisk v4zero).emiss =
      Real.rpow (mkDiskHit p0 sDisk xDisk v4zero).r (-2.0) := by
  have hcf : crossF sDisk xDisk = 0 := by
    simp only [crossF, sDisk, xDisk]
    norm_num
  have hcr : crossR sDisk xDisk = 10 := by
    simp [crossR, hcf, sDisk, xDisk]
  have hcp : crossPhi sDisk xDisk = 0 := by
    simp [crossPhi, hcf, sDisk, xDisk]
  exact c4_diskhit_wellformed p0 sDisk xDisk v4zero
    (by rw [hcr]; norm_num [rin])
    (by rw [hcr]; norm_num [rout])
    (by rw [hcp]; have := Real.pi_pos; norm_num; positivity)

/-- Claim C7: on every integration step the step size is chosen from the
current radius: the full base step `h0` at or above `10M`, a quarter of it
below `10M` but at or above `6M`, and an eighth of it below `6M` (this is
the selection `traceBody` feeds to `rk4`). -/
theorem c7_step_size_heuristic (r : ℝ) :
    (10.0 ≤ r → stepSize r = h0) ∧
    (6.0 ≤ r → r < 10.0 → stepSize r = 0.25 * h0) ∧
    (r < 6.0 → stepSize r = 0.125 * h0) := by
  refine ⟨fun h10 => ?_, fun h6 h10 => ?_, fun h6 => ?_⟩ <;>
    simp only [stepSize]
  · rw [if_neg (by linarith), if_neg (by linarith)]
  · rw [if_neg (by linarith), if_pos (by linarith)]
  · rw [if_pos (by linarith)]

/-- Witness for C7 at radii 12, 7 and 3. -/
theorem c7_step_size_heuristic_witness :
    stepSize 12 = h0 ∧ stepSize 7 = 0.25 * h0 ∧ stepSize 3 = 0.125 * h0 :=
  ⟨(c7_step_size_heuristic 12).1 (by norm_num),
   (c7_step_size_heuristic 7).2.1 (by norm_num) (by norm_num),
   (c7_step_size_heuristic 3).2.2 (by norm_num)⟩

/-- Claim C9: the ring-banding multiplier at any radius at or below the
inner disk radius equals its value at the inner disk radius, and at any
radius at or above the outer disk radius equals its value at the outer
disk radius (out-of-range radii are clamped to the boundary). -/
theorem c9_ring_mul_boundary_clamp (r : ℝ) :
    (r ≤ rin → ring_mul r = ring_mul rin) ∧
    (rout ≤ r → ring_mul r = ring_mul rout) := by
  have hio : rin < rout := by norm_num [rin, rout]
  constructor
  · intro hr
    have h1 : (if r < rin then rin else r) = rin := by
      rcases lt_or_ge r rin with h | h
      · rw [if_pos h]
      · rw [if_neg (not_lt.2 h)]; linarith
    have h2 : (if rin < rin then rin else rin) = rin := by
      rw [if_neg (lt_irrefl rin)]
    simp only [ring_mul, h1, h2]
  · intro hr
    have h1 : (if r < rin then rin else r) = r := by
      rw [if_neg (not_lt.2 (by linarith))]
    have h2 : (if r > rout then rout else r) = rout := by
      rcases lt_or_ge rout r with h | h
      · rw [if_pos h]
      · rw [if_neg (not_lt.2 h)]; linarith
    have h3 : (if rout < rin then rin else rout) = rout := by
      rw [if_neg (not_lt.2 (le_of_lt hio))]
    have h4 : (if rout > rout then rout else rout) = rout := by
      rw [if_neg (lt_irrefl rout)]
    simp only [ring_mul, h1, h2, h3, h4]

/-- Witness for C9 at the out-of-range radii 5 and 41. -/
theorem c9_ring_mul_boundary_clamp_witness :
    ring_mul 5 = ring_mul rin ∧ ring_mul 41 = ring_mul rout :=
  ⟨(c9_ring_mul_boundary_clamp 5).1 (by norm_num [rin]),
   (c9_ring_mul_boundary_clamp 41).2 (by norm_num [rout])⟩

/-- The C double clamp `v = max(0, v); v = min(1, v)` written with
sequential ifs equals `min 1 (max 0 v)`. -/
theorem clamp01_eq (v : ℝ) :
    (if (if v < 0.0 then 0.0 else v) > 1.0 then 1.0
     else if v < 0.0 then 0.0 else v) = min 1 (max 0 v) := by
  have h00 : (0.0 : ℝ) = 0 := by norm_num
  have h10 : (1.0 : ℝ) = 1 := by norm_num
  rw [h00, h10]
  rcases lt_or_ge v 0 with h | h
  · rw [if_pos h]
    rw [if_neg (by norm_num)]
    rw [max_eq_left h.le]
    norm_num
  · rw [if_neg (not_lt.2 h)]
    rw [max_eq_right h]
    rcases le_or_lt v 1 with h1 | h1
    · rw [if_neg (not_lt.2 h1), min_eq_right h1]
    · rw [if_pos h1, min_eq_left h1.le]

/-- The RAMP catalog has 30 glyphs. -/
theorem RAMP_length : RAMP.length = 30 := rfl

/-- Claim C6: for every DiskHit pixel the compositor's output character is
the dark-to-bright ramp indexed at
`floor(gammaCorrected * (levels - 1))` clamped into the valid index range,
where `gammaCorrected = (clamp01 (emiss * g^3 * ring * hotspot / scale))^gamma`. -/
theorem c6_compositor_diskhit_char (p : BHSceneParams) (H : Hit)
    (phase ns : ℝ) (x y : ℕ) (hhit : H.hit = true) :
    pixelChar p H phase ns x y =
      RAMP.getD
        (min (RAMP.length - 1)
          (Int.toNat ⌊Real.rpow
            (min 1 (max 0
              (H.emiss * Real.rpow H.g 3.0 * ring_mul H.r *
                hotspots_mul H.r H.phi phase / ns)))
            p.gamma_c * ((RAMP.length : ℝ) - 1)⌋)) ' ' := by
  have hval : disk_value_with_hotspots H phase =
      H.emiss * Real.rpow H.g 3.0 * ring_mul H.r *
        hotspots_mul H.r H.phi phase := by
    simp only [disk_value_with_hotspots, base_disk_value]
  have hrl : ramp_len = 30 := by
    simp only [ramp_len, RAMP_length]
    norm_num
  have hrlR : ((ramp_len : ℤ) : ℝ) - 1 = 29 := by rw [hrl]; norm_num
  have hlenR : ((RAMP.length : ℕ) : ℝ) - 1 = 29 := by rw [RAMP_length]; norm_num
  simp only [pixelChar, hhit, if_true]
  rw [hval, clamp01_eq, hrlR, hlenR, RAMP_length]
  have hq : (0 : ℝ) ≤ Real.rpow
      (min 1 (max 0
        (H.emiss * Real.rpow H.g 3.0 * ring_mul H.r *
          hotspots_mul H.r H.phi phase / ns))) p.gamma_c :=
    Real.rpow_nonneg (le_min zero_le_one (le_max_left 0 _)) _
  have hq29 : (0 : ℝ) ≤ Real.rpow
      (min 1 (max 0
        (H.emiss * Real.rpow H.g 3.0 * ring_mul H.r *
          hotspots_mul H.r H.phi phase / ns))) p.gamma_c * 29 :=
    mul_nonneg hq (by norm_num)
  simp only [ctrunc, if_pos hq29]
  have hfl := Int.floor_nonneg.2 hq29
  rw [if_neg (not_lt.2 hfl)]
  rw [hrl]
  congr 1
  rcases le_or_lt
    ⌊Real.rpow (min 1 (max 0
        (H.emiss * Real.rpow H.g 3.0 * ring_mul H.r *
          hotspots_mul H.r H.phi phase / ns))) p.gamma_c * 29⌋
    29 with h | h
  · rw [if_neg (by omega)]
    omega
  · rw [if_pos (by omega)]
    omega

/-- Witness for C6 at the unit-redshift disk hit, phase 0, scale 1 under
the default scene. -/
theorem c6_compositor_diskhit_char_witness :
    pixelChar p0 hitG1 0 1 0 0 =
      RAMP.getD
        (min (RAMP.length - 1)
          (Int.toNat ⌊Real.rpow
            (min 1 (max 0
              (hitG1.emiss * Real.rpow hitG1.g 3.0 * ring_mul hitG1.r *
                hotspots_mul hitG1.r hitG1.phi 0 / 1)))
            p0.gamma_c * ((RAMP.length : ℝ) - 1)⌋)) ' ' :=
  c6_compositor_diskhit_char p0 hitG1 0 1 0 0 rfl

/-- Claim C8: tracing and compositing are deterministic: identical scene
configurations produce identical lens maps, and identical lens maps,
phases and normalization scales produce identical frames (the embedded
functions are pure, mirroring the C code's freedom from mutable global
state and randomness). -/
theorem c8_determinism (p1 p2 : BHSceneParams) (m1 m2 : ℕ → Hit)
    (ph1 ph2 ns1 ns2 : ℝ)
    (hp : p1 = p2) (hm : m1 = m2) (hph : ph1 = ph2) (hns : ns1 = ns2) :
    bh_trace_map p1 = bh_trace_map p2 ∧
    bh_generate_ascii_frame p1 m1 ph1 ns1 =
      bh_generate_ascii_frame p2 m2 ph2 ns2 := by
  subst hp
  subst hm
  subst hph
  subst hns
  exact ⟨rfl, rfl⟩

/-- Witness for C8 on the default scene and a constant sky lens map. -/
theorem c8_determinism_witness :
    bh_trace_map p0 = bh_trace_map p0 ∧
    bh_generate_ascii_frame p0 mapG1 0 1 =
      bh_generate_ascii_frame p0 mapG1 0 1 :=
  c8_determinism p0 p0 mapG1 mapG1 0 0 1 1 rfl rfl rfl rfl

/-- Claim C10: after `bh_update_derived` (and hence after
`bh_init_scene_params`) the scene's width and height are each at least 1
(non-positive dimensions are silently clamped to 1), so `bh_pixel_count`
returns `width * height ≥ 1`; the pixel-count identity is stated under the
C `int` range bound on the incoming dimensions, and the default scene's
count is `80 * 52 = 4160`. -/
theorem c10_dimensions_clamped (p : BHSceneParams) :
    (1 ≤ (bh_update_derived p).width ∧ 1 ≤ (bh_update_derived p).height) ∧
    (p.width < 2 ^ 31 → p.height < 2 ^ 31 →
      bh_pixel_count (bh_update_derived p) =
        ((bh_update_derived p).width * (bh_update_derived p).height).toNat ∧
      1 ≤ bh_pixel_count (bh_update_derived p)) ∧
    (1 ≤ (bh_init_scene_params p).width ∧
      1 ≤ (bh_init_scene_params p).height ∧
      bh_pixel_count (bh_init_scene_params p) = 4160) := by
  have hw : (bh_update_derived p).width = if p.width < 1 then 1 else p.width :=
    rfl
  have hh : (bh_update_derived p).height =
      if p.height < 1 then 1 else p.height := rfl
  have hw1 : 1 ≤ (bh_update_derived p).width := by
    rw [hw]; split <;> omega
  have hh1 : 1 ≤ (bh_update_derived p).height := by
    rw [hh]; split <;> omega
  have key : ∀ q : BHSceneParams, 1 ≤ q.width → q.width < 2 ^ 31 →
      1 ≤ q.height → q.height < 2 ^ 31 →
      bh_pixel_count q = (q.width * q.height).toNat ∧
      1 ≤ bh_pixel_count q := by
    intro q hqw1 hqw2 hqh1 hqh2
    have hwm : q.width % (2 : ℤ) ^ 64 = q.width :=
      Int.emod_eq_of_lt (by omega) (by omega)
    have hhm : q.height % (2 : ℤ) ^ 64 = q.height :=
      Int.emod_eq_of_lt (by omega) (by omega)
    have hcw : c_size_t q.width = q.width.toNat := by
      simp only [c_size_t, hwm]
    have hch : c_size_t q.height = q.height.toNat := by
      simp only [c_size_t, hhm]
    have hwn : q.width.toNat < 2 ^ 31 := by omega
    have hhn : q.height.toNat < 2 ^ 31 := by omega
    have hlt : q.width.toNat * q.height.toNat < 2 ^ 64 := by
      calc q.width.toNat * q.height.toNat < 2 ^ 31 * 2 ^ 31 :=
            Nat.mul_lt_mul_of_lt_of_lt hwn hhn
        _ ≤ 2 ^ 64 := by norm_num
    have hmul : (q.width * q.height).toNat = q.width.toNat * q.height.toNat := by
      have h1 := Int.toNat_of_nonneg (by omega : (0 : ℤ) ≤ q.width)
      have h2 := Int.toNat_of_nonneg (by omega : (0 : ℤ) ≤ q.height)
      have h3 := Int.toNat_of_nonneg
        (mul_nonneg (by omega : (0 : ℤ) ≤ q.width)
          (by omega : (0 : ℤ) ≤ q.height))
      have h4 : ((q.width * q.height).toNat : ℤ) =
          (q.width.toNat : ℤ) * (q.height.toNat : ℤ) := by rw [h3, h1, h2]
      exact_mod_cast h4
    have hcount : bh_pixel_count q = q.width.toNat * q.height.toNat := by
      simp only [bh_pixel_count, hcw, hch]
      exact Nat.mod_eq_of_lt hlt
    refine ⟨by rw [hcount, hmul], ?_⟩
    rw [hcount]
    have : 1 ≤ q.width.toNat := by omega
    have : 1 ≤ q.height.toNat := by omega
    exact Nat.one_le_iff_ne_zero.2 (by positivity)
  refine ⟨⟨hw1, hh1⟩, fun hpw hph => ?_, ?_⟩
  · refine key _ hw1 ?_ hh1 ?_
    · rw [hw]; split <;> omega
    · rw [hh]; split <;> omega
  · have hiw : (bh_init_scene_params p).width = 80 := by
      simp only [bh_init_scene_params, bh_update_derived]
      norm_num
    have hih : (bh_init_scene_params p).height = 52 := by
      simp only [bh_init_scene_params, bh_update_derived]
      norm_num
    have hm80 : (80 : ℤ) % (2 : ℤ) ^ 64 = 80 :=
      Int.emod_eq_of_lt (by norm_num) (by norm_num)
    have hm52 : (52 : ℤ) % (2 : ℤ) ^ 64 = 52 :=
      Int.emod_eq_of_lt (by norm_num) (by norm_num)
    have h1 : c_size_t (80 : ℤ) = 80 := by
      simp only [c_size_t, hm80]; rfl
    have h2 : c_size_t (52 : ℤ) = 52 := by
      simp only [c_size_t, hm52]; rfl
    refine ⟨by rw [hiw]; norm_num, by rw [hih]; norm_num, ?_⟩
    simp only [bh_pixel_count, hiw, hih, h1, h2]
    norm_num

/-- Witness for C10 at a scene with non-positive dimensions. -/
theorem c10_dimensions_clamped_witness :
    bh_pixel_count (bh_update_derived
      { pZero with width := -3, height := 0 }) =
      ((bh_update_derived { pZero with width := -3, height := 0 }).width *
        (bh_update_derived { pZero with width := -3, height := 0 }).height).toNat ∧
    1 ≤ bh_pixel_count (bh_update_derived
      { pZero with width := -3, height := 0 }) :=
  (c10_dimensions_clamped { pZero with width := -3, height := 0 }).2.1
    (by norm_num [pZero]) (by norm_num [pZero])

end

end BHCore
